import Mathlib

/-!
Verification of the Custom-RAG repository: a shallow embedding of the
token-bounded chunker and path selection from src/index_code.py, and of the
retrieval endpoint from src/server.py, together with theorems settling the
spec's claims about them.
-/

namespace CustomRAG

/-- Python's `str.strip()` (whitespace removed from both ends), modelled on the
underlying character list so that it evaluates by kernel reduction. -/
def strip (s : String) : String :=
  String.mk (((s.data.dropWhile Char.isWhitespace).reverse.dropWhile
    Char.isWhitespace).reverse)

/-- Python's `sep.join(xs)`: the empty string on `[]`, the sole element on a
singleton, and elements interleaved with `sep` otherwise. -/
def joinWith (sep : String) : List String → String
  | [] => ""
  | [s] => s
  | s :: rest => s ++ sep ++ joinWith sep rest

/-! ## Token-bounded chunker (src/index_code.py, `chunk`, lines 80-92)

The Python generator iterates over the file's lines keeping a buffer `buf`
and a running token count `count`; before adding a line of `t` tokens it
flushes the buffer whenever `count + t > max_tokens` (resetting `buf, count`
to `[], 0`), and flushes the final non-empty buffer at the end.  The
tokenizer is an external collaborator, modelled as a function from a line to
its token count. -/

/-- The loop of `chunk`, with the buffer and running count as explicit
accumulators.  Chunks are kept as lists of lines; `chunkStrings` joins them
with newlines as the generator's `yield '\n'.join(buf)` does. -/
def chunkAux (tok : String → Nat) (maxTokens : Nat) :
    List String → List String → Nat → List (List String)
  | [], buf, _ => if buf.isEmpty then [] else [buf]
  | line :: rest, buf, count =>
    let t := tok line
    if count + t > maxTokens then
      buf :: chunkAux tok maxTokens rest [line] t
    else
      chunkAux tok maxTokens rest (buf ++ [line]) (count + t)

/-- `chunk` on a file already split into lines, at the list-of-lines level. -/
def chunkLines (tok : String → Nat) (maxTokens : Nat) (lines : List String) :
    List (List String) :=
  chunkAux tok maxTokens lines [] 0

/-- The chunk strings the generator actually yields: each buffered group of
lines joined with newlines. -/
def chunkStrings (tok : String → Nat) (maxTokens : Nat) (lines : List String) :
    List String :=
  (chunkLines tok maxTokens lines).map (joinWith "\n")

/-- Token count of a group of lines under the tokenizer, accumulated
line-by-line as the generator's `count` is. -/
def sumTok (tok : String → Nat) (c : List String) : Nat :=
  (c.map tok).sum

/-- Total token count of a file: the sum of the per-line token counts. -/
def totalTokens (tok : String → Nat) (lines : List String) : Nat :=
  sumTok tok lines

/-! ## Path selection (src/index_code.py, `is_hidden` and `index_codebase`)

Paths are modelled as their component lists (`pathlib.Path.parts`).  For each
extension, `index_codebase` runs `src_dir.rglob('*.<ext>')` — every file
under the root whose last component ends in `.<ext>`, the yielded path
starting with the root's own components — and keeps a file when
`(include_hidden or not is_hidden(f)) and not any(ex in f.parts for ex in
excluded_dirs)`. -/

/-- Python's `part.startswith('.')` on one path component. -/
def partHidden (p : String) : Bool :=
  match p.data with
  | [] => false
  | c :: _ => c = '.'

/-- `is_hidden` (src/index_code.py lines 75-77): true when any component of
the path starts with a dot. -/
def is_hidden (parts : List String) : Bool :=
  parts.any partHidden

/-- Whether a path's filename matches the glob `*.<ext>`: its last component
ends with a dot followed by the extension. -/
def matchesExt (ext : String) (parts : List String) : Bool :=
  match parts.getLast? with
  | some base => ("." ++ ext).data.isSuffixOf base.data
  | none => false

/-- The filter of the list comprehension in `index_codebase` (lines 109-113):
keep `f` when `(include_hidden or not is_hidden(f)) and not any(ex in f.parts
for ex in excluded_dirs)`. -/
def keepFile (excluded_dirs : List String) (include_hidden : Bool)
    (f : List String) : Bool :=
  (include_hidden || !is_hidden f) &&
    !(excluded_dirs.any (fun ex => f.contains ex))

/-- File discovery of `index_codebase` (lines 106-114): `tree` lists the
relative component paths of the files under the root, so `rglob` yields
`src_dir ++ rel` for each; per extension the glob matches are filtered by
`keepFile`, and the per-extension lists are concatenated. -/
def discoverFiles (extensions excluded_dirs : List String)
    (include_hidden : Bool) (src_dir : List String)
    (tree : List (List String)) : List (List String) :=
  extensions.flatMap fun ext =>
    ((tree.map (fun rel => src_dir ++ rel)).filter
      (fun f => matchesExt ext f)).filter (keepFile excluded_dirs include_hidden)

/-! ## Persisted records (src/index_code.py, `index_codebase` lines 116-123)

For every file, for every chunk text, one record `{filename, text, vector}`
is appended to the store.  The embedding vector comes from an external
provider and plays no role in the claims, so records carry filename and
text. -/

/-- A persisted row of the `code_chunks` table, less its embedding vector. -/
structure Record where
  filename : String
  text : String
deriving DecidableEq

/-- The records `index_codebase` appends for one file, in chunk order. -/
def indexFile (tok : String → Nat) (maxTokens : Nat) (f : String)
    (lines : List String) : List Record :=
  (chunkStrings tok maxTokens lines).map (fun t => { filename := f, text := t })

/-! ## Retrieval endpoint (src/server.py)

The `/retrieve` handler declares `table = Depends(get_code_chunks_table)`,
so FastAPI runs `get_code_chunks_table` — `lancedb.connect(DB_PATH)`,
`db.open_table("code_chunks")`, `table.create_fts_index(["text",
"filename"], replace=True)` — before the handler body executes.  Those
store interactions, and the later `table.search(...).limit(25)`, are
recorded as an event trace.  The keyword extractor (Rake) and the store's
ranked full-text match list are external collaborators, modelled as function
parameters; `limit(25)` keeps the first 25 ranked matches per the store
contract of spec section 4.4. -/

/-- The request payload: `query` and optional `fullInput`. -/
structure ContinueQuery where
  query : String
  fullInput : Option String
deriving DecidableEq

/-- A normalized result row `{name, description, content}`. -/
structure RetrievalResult where
  name : String
  description : String
  content : String
deriving DecidableEq

/-- The only client error the handler raises: HTTP 400, no input text. -/
inductive RetrieveError where
  | invalidInput
deriving DecidableEq

/-- Interactions with the LanceDB store observable during one request. -/
inductive StoreEvent where
  | connect (path : String)
  | openTable (tableName : String)
  | createFtsIndex (columns : List String)
  | search (terms : String) (limit : Nat)
deriving DecidableEq

/-- Store interactions of `get_code_chunks_table` (src/server.py lines
15-20): connect, open the `code_chunks` table, (re)create the full-text
index over text and filename. -/
def getCodeChunksTableEvents (dbPath : String) : List StoreEvent :=
  [StoreEvent.connect dbPath, StoreEvent.openTable "code_chunks",
    StoreEvent.createFtsIndex ["text", "filename"]]

/-- Line 37, `text_to_analyze = payload.fullInput or payload.query`: Python
truthiness — `fullInput` is used exactly when present and non-empty as a
string, with no trimming involved in the selection. -/
def textToAnalyze (p : ContinueQuery) : String :=
  match p.fullInput with
  | some s => if s = "" then p.query else s
  | none => p.query

/-- Line 43, `search_terms = " ".join(keywords) or payload.query`: the
keywords joined by single spaces unless that join is the empty string, in
which case the raw query. -/
def searchTerms (keywords : List String) (query : String) : String :=
  if joinWith " " keywords = "" then query else joinWith " " keywords

instance {ε α : Type} [DecidableEq ε] [DecidableEq α] : DecidableEq (Except ε α)
  | Except.error a, Except.error b =>
    if h : a = b then isTrue (by rw [h])
    else isFalse (by intro he; cases he; exact h rfl)
  | Except.error _, Except.ok _ => isFalse (by intro h; cases h)
  | Except.ok _, Except.error _ => isFalse (by intro h; cases h)
  | Except.ok a, Except.ok b =>
    if h : a = b then isTrue (by rw [h])
    else isFalse (by intro he; cases he; exact h rfl)

/-- What one request to `/retrieve` produces: the store interactions that
occurred, and either the HTTP 400 error or the response list. -/
structure RetrieveOutcome where
  events : List StoreEvent
  response : Except RetrieveError (List RetrievalResult)
deriving DecidableEq

/-- The `/retrieve` request (src/server.py lines 28-53): the dependency's
store events happen first; then the handler picks the analysis text, raises
400 when it strips to empty, otherwise extracts keywords, builds the search
terms, searches with limit 25 and maps each hit to
`{name: filename, description: filename, content: text}`. -/
def handleRetrieve (dbPath : String) (extractor : String → List String)
    (storeSearch : String → List Record) (payload : ContinueQuery) :
    RetrieveOutcome :=
  let depEvents := getCodeChunksTableEvents dbPath
  let t := textToAnalyze payload
  if strip t = "" then
    { events := depEvents, response := Except.error RetrieveError.invalidInput }
  else
    let keywords := extractor t
    let terms := searchTerms keywords payload.query
    let hits := (storeSearch terms).take 25
    { events := depEvents ++ [StoreEvent.search terms 25],
      response := Except.ok (hits.map fun h =>
        { name := h.filename, description := h.filename, content := h.text }) }

/-! ## Chunker lemmas -/

/-- Sum of per-line token counts distributes over append. -/
theorem sumTok_append (tok : String → Nat) (a b : List String) :
    sumTok tok (a ++ b) = sumTok tok a + sumTok tok b := by
  simp [sumTok]

/-- Sum of per-line token counts over a concatenation of groups. -/
theorem sumTok_flatten (tok : String → Nat) (L : List (List String)) :
    sumTok tok L.flatten = (L.map (sumTok tok)).sum := by
  induction L with
  | nil => simp [sumTok]
  | cons c L ih => simp [sumTok_append, ih]

/-- The chunking loop only moves lines from the input to the output: the
concatenation of everything it emits is the pending buffer followed by the
remaining lines. -/
theorem chunkAux_join (tok : String → Nat) (B : Nat) :
    ∀ (lines buf : List String) (count : Nat),
      (chunkAux tok B lines buf count).flatten = buf ++ lines := by
  intro lines
  induction lines with
  | nil => intro buf count; cases buf <;> simp [chunkAux]
  | cons line rest ih =>
    intro buf count
    simp only [chunkAux]
    split
    · simp [ih]
    · simp [ih]

/-- Invariant of the chunking loop: as long as the running count matches the
buffer and the buffer is within budget (or is a lone oversize line), every
emitted chunk is within budget or is a lone oversize line. -/
theorem chunkAux_budget (tok : String → Nat) (B : Nat) :
    ∀ (lines buf : List String) (count : Nat),
      count = sumTok tok buf →
      (count ≤ B ∨ ∃ l, buf = [l] ∧ B < tok l) →
      ∀ c ∈ chunkAux tok B lines buf count,
        sumTok tok c ≤ B ∨ ∃ l, c = [l] ∧ B < tok l := by
  intro lines
  induction lines with
  | nil =>
    intro buf count hc hinv c hmem
    cases buf with
    | nil => simp [chunkAux] at hmem
    | cons a bl =>
      simp [chunkAux] at hmem
      subst hmem
      exact hc ▸ hinv
  | cons line rest ih =>
    intro buf count hc hinv c hmem
    simp only [chunkAux] at hmem
    by_cases hgt : count + tok line > B
    · rw [if_pos hgt] at hmem
      rcases List.mem_cons.mp hmem with rfl | hmem'
      · exact hc ▸ hinv
      · refine ih [line] (tok line) (by simp [sumTok]) ?_ c hmem'
        by_cases hle : tok line ≤ B
        · exact Or.inl hle
        · exact Or.inr ⟨line, rfl, Nat.lt_of_not_le hle⟩
    · rw [if_neg hgt] at hmem
      refine ih (buf ++ [line]) (count + tok line) ?_ ?_ c hmem
      · simp [sumTok_append, sumTok, hc]
      · exact Or.inl (Nat.le_of_not_lt hgt)

/-- C5.  The chunker is a partition of the input into contiguous runs:
concatenating the chunks' lines in order reproduces the input line sequence
exactly, for every tokenizer and every budget. -/
theorem chunk_round_trip (tok : String → Nat) (B : Nat) (lines : List String) :
    (chunkLines tok B lines).flatten = lines := by
  simpa using chunkAux_join tok B lines [] 0

/-- C4.  Every chunk the chunker produces has token sum at most the budget,
except that a chunk may be a single line whose own token count exceeds the
budget — such a line is still placed alone in its own chunk. -/
theorem chunk_budget (tok : String → Nat) (B : Nat) (lines : List String)
    (c : List String) (hc : c ∈ chunkLines tok B lines) :
    sumTok tok c ≤ B ∨ ∃ l, c = [l] ∧ B < tok l :=
  chunkAux_budget tok B lines [] 0 (by simp [sumTok]) (Or.inl (Nat.zero_le B)) c hc

/-- Witness for `chunk_budget` at a concrete chunk of a concrete file. -/
theorem chunk_budget_witness :
    (["a"] ∈ chunkLines (fun _ => 1) 1 ["a"]) ∧
    (sumTok (fun _ => 1) ["a"] ≤ 1 ∨ ∃ l, ["a"] = [l] ∧ 1 < (fun _ => 1) l) :=
  ⟨by decide, chunk_budget (fun _ => 1) 1 ["a"] ["a"] (by decide)⟩

/-- C3 fails as stated: a single line of 3 tokens under budget 1 has total
token count 3, so the claim demands at least 3 chunks, but the chunker
yields only 2 (an empty chunk and the oversize line). -/
theorem chunk_count_lower_bound_cex :
    totalTokens (fun _ => 3) ["x"] = 3 ∧
    (chunkLines (fun _ => 3) 1 ["x"]).length <
      (totalTokens (fun _ => 3) ["x"] + 1 - 1) / 1 := by
  decide

/-- C3 amended.  When every line's token count is at most the positive
budget B, a file of total token count T yields at least T / B chunks,
rounded up. -/
theorem chunk_count_lower_bound (tok : String → Nat) (B : Nat)
    (lines : List String) (hB : 0 < B) (hl : ∀ l ∈ lines, tok l ≤ B) :
    (totalTokens tok lines + B - 1) / B ≤ (chunkLines tok B lines).length := by
  have hj : (chunkLines tok B lines).flatten = lines := by
    simpa using chunkAux_join tok B lines [] 0
  have hmem : ∀ c ∈ chunkLines tok B lines, sumTok tok c ≤ B := by
    intro c hc
    rcases chunkAux_budget tok B lines [] 0 (by simp [sumTok])
        (Or.inl (Nat.zero_le B)) c hc with h | ⟨l, rfl, hlt⟩
    · exact h
    · exfalso
      have hlin : l ∈ lines := by
        rw [← hj]
        exact List.mem_flatten.mpr ⟨[l], hc, List.mem_singleton.mpr rfl⟩
      exact Nat.not_le.mpr hlt (hl l hlin)
  have hsum : totalTokens tok lines
      = ((chunkLines tok B lines).map (sumTok tok)).sum := by
    rw [totalTokens]
    conv_lhs => rw [← hj]
    rw [sumTok_flatten]
  have hle : totalTokens tok lines ≤ (chunkLines tok B lines).length * B := by
    rw [hsum]
    calc ((chunkLines tok B lines).map (sumTok tok)).sum
        ≤ ((chunkLines tok B lines).map (sumTok tok)).length • B :=
          List.sum_le_card_nsmul _ B (by
            intro x hx
            rcases List.mem_map.mp hx with ⟨c, hc, rfl⟩
            exact hmem c hc)
      _ = (chunkLines tok B lines).length * B := by
          simp [smul_eq_mul]
  have hle' : totalTokens tok lines ≤ B * (chunkLines tok B lines).length := by
    rwa [Nat.mul_comm] at hle
  rw [Nat.div_le_iff_le_mul_add_pred hB]
  omega

/-- Witness for `chunk_count_lower_bound` on a two-line file within budget. -/
theorem chunk_count_lower_bound_witness :
    0 < 1 ∧ (∀ l ∈ ["a", "b"], (fun _ => 1) l ≤ 1) ∧
    (totalTokens (fun _ => 1) ["a", "b"] + 1 - 1) / 1 ≤
      (chunkLines (fun _ => 1) 1 ["a", "b"]).length :=
  ⟨by decide, by decide,
    chunk_count_lower_bound (fun _ => 1) 1 ["a", "b"] (by decide) (by decide)⟩

/-- C9.  When the first line's token count exceeds the budget, the guard
fires on the still-empty buffer, so the first chunk yielded is the empty
string, before the chunk that holds the oversize line; the indexing pipeline
then persists a record with empty chunk text for that file. -/
theorem oversize_first_line_empty_chunk (tok : String → Nat) (B : Nat)
    (f l : String) (rest : List String) (h : B < tok l) :
    (chunkStrings tok B (l :: rest)).head? = some "" ∧
    (indexFile tok B f (l :: rest)).head? =
      some { filename := f, text := "" } := by
  have hstep : chunkLines tok B (l :: rest)
      = [] :: chunkAux tok B rest [l] (tok l) := by
    simp [chunkLines, chunkAux, Nat.zero_add, h]
  constructor <;> simp [chunkStrings, indexFile, hstep, joinWith]

/-- Witness for `oversize_first_line_empty_chunk` with a 3-token line under
budget 1. -/
theorem oversize_first_line_empty_chunk_witness :
    1 < (fun _ => 3) "x" ∧
    (chunkStrings (fun _ => 3) 1 ["x"]).head? = some "" ∧
    (indexFile (fun _ => 3) 1 "f.py" ["x"]).head? =
      some { filename := "f.py", text := "" } :=
  ⟨by decide, oversize_first_line_empty_chunk (fun _ => 3) 1 "f.py" "x" []
    (by decide)⟩

/-! ## Retrieval endpoint theorems -/

/-- Joining a non-empty list of non-empty strings with single spaces never
gives the empty string. -/
theorem joinWith_space_ne_empty :
    ∀ (l : List String), l ≠ [] → (∀ s ∈ l, s ≠ "") → joinWith " " l ≠ ""
  | [], hne, _ => absurd rfl hne
  | [s], _, h => by simpa [joinWith] using h s (by simp)
  | s :: r :: t, _, h => by
    intro hcon
    have hlen := congrArg String.length hcon
    simp [joinWith, String.length_append] at hlen
    exact absurd hlen.1.2 (by decide)

/-- C1 fails as stated: with fullInput a single space (whitespace-only) and
query a word that is non-empty after trimming, the handler picks the
whitespace-only fullInput (Python truthiness, no trim) and raises the
InvalidInput error, instead of analysing the query. -/
theorem retrieve_trimmed_selection_cex :
    strip " " = "" ∧ strip "hello" ≠ "" ∧
    (handleRetrieve "db" (fun _ => []) (fun _ => [])
        { query := "hello", fullInput := some " " }).response
      = Except.error RetrieveError.invalidInput := by
  decide

/-- C1 amended.  The analysis text is fullInput whenever it is present and
non-empty as a string (no trimming in the selection test), else the raw
query; the handler fails with InvalidInput exactly when that analysis text
is empty after trimming — so a whitespace-only fullInput triggers the error
even when the query is non-blank. -/
theorem retrieve_selection_and_validation (dbPath : String)
    (extractor : String → List String) (storeSearch : String → List Record)
    (p : ContinueQuery) :
    ((handleRetrieve dbPath extractor storeSearch p).response
        = Except.error RetrieveError.invalidInput
      ↔ strip (textToAnalyze p) = "") ∧
    (∀ s, p.fullInput = some s → s ≠ "" → textToAnalyze p = s) := by
  constructor
  · unfold handleRetrieve
    dsimp only
    split
    · simp [*]
    · simp [*]
  · intro s hs hne
    simp [textToAnalyze, hs, hne]

/-- Witness for `retrieve_selection_and_validation`: a whitespace-only
fullInput is selected over the non-blank query and the request errors. -/
theorem retrieve_selection_and_validation_witness :
    textToAnalyze { query := "hello", fullInput := some " " } = " " ∧
    (handleRetrieve "db" (fun _ => []) (fun _ => [])
        { query := "hello", fullInput := some " " }).response
      = Except.error RetrieveError.invalidInput := by
  constructor
  · exact (retrieve_selection_and_validation "db" (fun _ => []) (fun _ => [])
      { query := "hello", fullInput := some " " }).2 " " rfl (by decide)
  · exact (retrieve_selection_and_validation "db" (fun _ => []) (fun _ => [])
      { query := "hello", fullInput := some " " }).1.mpr (by decide)

/-- C2 fails as stated: on the empty request the handler does reply with the
client error, but the dependency has already connected to the store and
recreated the full-text index, so store accesses do occur on that request. -/
theorem empty_query_store_access_cex :
    (handleRetrieve "db" (fun _ => []) (fun _ => [])
        { query := "", fullInput := none }).response
      = Except.error RetrieveError.invalidInput ∧
    StoreEvent.connect "db" ∈ (handleRetrieve "db" (fun _ => []) (fun _ => [])
        { query := "", fullInput := none }).events ∧
    StoreEvent.createFtsIndex ["text", "filename"]
      ∈ (handleRetrieve "db" (fun _ => []) (fun _ => [])
        { query := "", fullInput := none }).events := by
  decide

/-- C2 amended.  An empty query with absent or empty fullInput fails with
InvalidQuery and no search is ever executed against the store on that
request; however the request's store events are exactly the dependency's
connect, open-table and create-index accesses, which happen before
validation. -/
theorem empty_query_rejected_no_search (dbPath : String)
    (extractor : String → List String) (storeSearch : String → List Record)
    (q : String) (fi : Option String) (hq : q = "")
    (hfi : fi = none ∨ fi = some "") :
    (handleRetrieve dbPath extractor storeSearch ⟨q, fi⟩).response
      = Except.error RetrieveError.invalidInput ∧
    (handleRetrieve dbPath extractor storeSearch ⟨q, fi⟩).events
      = getCodeChunksTableEvents dbPath ∧
    ∀ t n, StoreEvent.search t n ∉
      (handleRetrieve dbPath extractor storeSearch ⟨q, fi⟩).events := by
  subst hq
  have ht : textToAnalyze ⟨"", fi⟩ = "" := by
    rcases hfi with rfl | rfl <;> simp [textToAnalyze]
  have hs : strip (textToAnalyze ⟨"", fi⟩) = "" := by
    rw [ht]; decide
  refine ⟨?_, ?_, ?_⟩ <;>
    simp [handleRetrieve, hs, getCodeChunksTableEvents]

/-- Witness for `empty_query_rejected_no_search` at the empty request. -/
theorem empty_query_rejected_no_search_witness :
    ("" : String) = "" ∧
    ((handleRetrieve "db" (fun _ => []) (fun _ => [])
        ⟨"", none⟩).response = Except.error RetrieveError.invalidInput ∧
      (handleRetrieve "db" (fun _ => []) (fun _ => [])
        ⟨"", none⟩).events = getCodeChunksTableEvents "db" ∧
      ∀ t n, StoreEvent.search t n ∉
        (handleRetrieve "db" (fun _ => []) (fun _ => []) ⟨"", none⟩).events) :=
  ⟨rfl, empty_query_rejected_no_search "db" (fun _ => []) (fun _ => [])
    "" none rfl (Or.inl rfl)⟩

/-- C6.  Whatever the store holds and however many records match, a
successful response of the handler carries at most 25 results, because the
search is issued with limit 25. -/
theorem retrieve_result_cap (dbPath : String)
    (extractor : String → List String) (storeSearch : String → List Record)
    (p : ContinueQuery) (rs : List RetrievalResult)
    (h : (handleRetrieve dbPath extractor storeSearch p).response
      = Except.ok rs) :
    rs.length ≤ 25 := by
  unfold handleRetrieve at h
  dsimp only at h
  split at h
  · simp at h
  · simp only [Except.ok.injEq] at h
    subst h
    simp [List.length_take]

/-- Witness for `retrieve_result_cap` on a concrete successful request. -/
theorem retrieve_result_cap_witness :
    (handleRetrieve "db" (fun _ => []) (fun _ => [])
        { query := "hello", fullInput := none }).response
      = Except.ok ([] : List RetrievalResult) ∧
    ([] : List RetrievalResult).length ≤ 25 :=
  ⟨by decide, retrieve_result_cap "db" (fun _ => []) (fun _ => [])
    { query := "hello", fullInput := none } [] (by decide)⟩

/-- C7.  For a validated request, the terms sent to the store's search are
the extractor's ranked phrases joined by single spaces in rank order, and
the raw query verbatim when the extractor returns no phrases — assuming the
extractor's phrases are themselves non-empty strings. -/
theorem retrieve_search_terms (dbPath : String)
    (extractor : String → List String) (storeSearch : String → List Record)
    (p : ContinueQuery) (hval : strip (textToAnalyze p) ≠ "")
    (hph : ∀ kw ∈ extractor (textToAnalyze p), kw ≠ "") :
    (handleRetrieve dbPath extractor storeSearch p).events
      = getCodeChunksTableEvents dbPath ++
        [StoreEvent.search
          (if extractor (textToAnalyze p) = [] then p.query
            else joinWith " " (extractor (textToAnalyze p))) 25] := by
  have hterms : searchTerms (extractor (textToAnalyze p)) p.query
      = if extractor (textToAnalyze p) = [] then p.query
        else joinWith " " (extractor (textToAnalyze p)) := by
    cases hk : extractor (textToAnalyze p) with
    | nil => simp [searchTerms, joinWith]
    | cons a l =>
      rw [hk] at hph
      have hne : joinWith " " (a :: l) ≠ "" :=
        joinWith_space_ne_empty (a :: l) (by simp) hph
      simp [searchTerms, hne]
  unfold handleRetrieve
  rw [if_neg hval]
  dsimp only
  rw [hterms]

/-- Witness for `retrieve_search_terms`: an extractor with no phrases makes
the handler search with the raw query verbatim. -/
theorem retrieve_search_terms_witness :
    strip (textToAnalyze { query := "parse json", fullInput := some "" }) ≠ "" ∧
    (handleRetrieve "db" (fun _ => []) (fun _ => [])
        { query := "parse json", fullInput := some "" }).events
      = getCodeChunksTableEvents "db" ++ [StoreEvent.search "parse json" 25] := by
  refine ⟨by decide, ?_⟩
  have h := retrieve_search_terms "db" (fun _ => []) (fun _ => [])
    { query := "parse json", fullInput := some "" } (by decide)
    (by intro kw hkw; simp at hkw)
  simpa using h

/-! ## Path selection theorems -/

/-- Every file that survives discovery passed the comprehension's filter. -/
theorem mem_discoverFiles_keep (exts excl : List String) (ih : Bool)
    (root : List String) (tree : List (List String)) (f : List String)
    (h : f ∈ discoverFiles exts excl ih root tree) :
    keepFile excl ih f = true := by
  rcases List.mem_flatMap.mp h with ⟨ext, _, hf⟩
  exact (List.mem_filter.mp hf).2

/-- C8.  With excluded directories build and venv and hidden files not
included, proj/.git/x.py and proj/build/y.py are excluded while
proj/src/z.py is discovered when its extension is requested; in general no
discovered file has a dot-prefixed component or an excluded directory name
as a component. -/
theorem path_filtering (extensions : List String) (hpy : "py" ∈ extensions) :
    (["proj", ".git", "x.py"] ∉ discoverFiles extensions ["build", "venv"]
        false ["proj"] [[".git", "x.py"], ["build", "y.py"], ["src", "z.py"]]) ∧
    (["proj", "build", "y.py"] ∉ discoverFiles extensions ["build", "venv"]
        false ["proj"] [[".git", "x.py"], ["build", "y.py"], ["src", "z.py"]]) ∧
    (["proj", "src", "z.py"] ∈ discoverFiles extensions ["build", "venv"]
        false ["proj"] [[".git", "x.py"], ["build", "y.py"], ["src", "z.py"]]) ∧
    (∀ (tree : List (List String)) (f : List String),
      f ∈ discoverFiles extensions ["build", "venv"] false ["proj"] tree →
        is_hidden f = false ∧ "build" ∉ f ∧ "venv" ∉ f) := by
  refine ⟨?_, ?_, ?_, ?_⟩
  · intro h
    exact absurd (mem_discoverFiles_keep _ _ _ _ _ _ h) (by decide)
  · intro h
    exact absurd (mem_discoverFiles_keep _ _ _ _ _ _ h) (by decide)
  · refine List.mem_flatMap.mpr ⟨"py", hpy, ?_⟩
    decide
  · intro tree f h
    simpa [keepFile] using mem_discoverFiles_keep _ _ _ _ _ _ h

/-- Witness for `path_filtering` with the python extension requested. -/
theorem path_filtering_witness :
    ("py" ∈ ["py"]) ∧
    ["proj", "src", "z.py"] ∈ discoverFiles ["py"] ["build", "venv"] false
      ["proj"] [[".git", "x.py"], ["build", "y.py"], ["src", "z.py"]] :=
  ⟨by decide, (path_filtering ["py"] (by decide)).2.2.1⟩

/-- C10.  The hidden test inspects every component of a candidate path, and
`rglob` paths start with the root's own components, so a root with any
dot-prefixed component (such as `..` or a hidden ancestor) makes discovery
return no files at all, whatever the extensions. -/
theorem hidden_root_discovers_nothing (extensions excluded_dirs : List String)
    (root : List String) (tree : List (List String))
    (h : ∃ p ∈ root, partHidden p = true) :
    discoverFiles extensions excluded_dirs false root tree = [] := by
  rw [List.eq_nil_iff_forall_not_mem]
  intro f hf
  rcases List.mem_flatMap.mp hf with ⟨ext, _, hf'⟩
  have hk := (List.mem_filter.mp hf').2
  have hmem := (List.mem_filter.mp (List.mem_filter.mp hf').1).1
  rcases List.mem_map.mp hmem with ⟨rel, _, rfl⟩
  rcases h with ⟨p, hp, hph⟩
  have hhid : is_hidden (root ++ rel) = true := by
    simp only [is_hidden, List.any_append, Bool.or_eq_true, List.any_eq_true]
    exact Or.inl ⟨p, hp, hph⟩
  simp [keepFile, hhid] at hk

/-- Witness for `hidden_root_discovers_nothing` with root `..`. -/
theorem hidden_root_discovers_nothing_witness :
    (∃ p ∈ ([".."] : List String), partHidden p = true) ∧
    discoverFiles ["py"] [] false [".."] [["x.py"]] = [] :=
  ⟨⟨"..", by decide, by decide⟩,
    hidden_root_discovers_nothing ["py"] [] [".."] [["x.py"]]
      ⟨"..", by decide, by decide⟩⟩

end CustomRAG
